import Mathlib

/-!
Shallow embedding of `logmerger/timestamp_wrapper.py` (the timestamp
detection/parsing core of the logmerger repository), together with proofs
settling the specification claims.

Strings are modelled as `List Char`.  Python regular expressions appearing in
the source are fixed literals compiled with `re.VERBOSE`; each one is embedded
as an executable matcher written directly from the pattern text (under
`re.VERBOSE`, unescaped whitespace in a pattern is ignored).  Character
classes (`\d`, `\s`, `\w`) are modelled over ASCII.
-/

/-- The escape character `"\x1b"` used by `strip_escape_sequences`. -/
def escChar : Char := Char.ofNat 27

/-- `\d` of Python `re` (ASCII). -/
def isDigitChar (c : Char) : Bool := '0' ≤ c && c ≤ '9'

/-- `\s` of Python `re` and the characters removed by `str.rstrip()`
(ASCII whitespace: space, tab, newline, carriage return, form feed,
vertical tab). -/
def isSpaceChar (c : Char) : Bool :=
  c = ' ' || c = '\t' || c = '\n' || c = '\r' ||
    c = Char.ofNat 11 || c = Char.ofNat 12

/-- `\w` of Python `re` (ASCII): letters, digits and underscore. -/
def isWordChar (c : Char) : Bool :=
  ('a' ≤ c && c ≤ 'z') || ('A' ≤ c && c ≤ 'Z') || isDigitChar c || c = '_'

/-- Python `str.rstrip()`: remove trailing whitespace. -/
def rstrip (l : List Char) : List Char :=
  ((l.reverse).dropWhile isSpaceChar).reverse

/-- Numeric value of a list of decimal digit characters. -/
def natOfDigits (l : List Char) : Nat :=
  l.foldl (fun acc c => acc * 10 + (c.toNat - 48)) 0

/-! ## ANSI stripper

`strip_escape_sequences = partial(re.compile("\x1b" + r"\[\d+(;\d+)*m").sub, "")`
removes every (leftmost, non-overlapping) occurrence of
`ESC [ digits (; digits)* m`. -/

/-- Consume the remainder of `\d+(;\d+)*m` given that `ESC [ <digit>` has just
been read: digits continue the current run, `;` must be followed by a digit
starting the next run, and `m` terminates the sequence.  The digit, `;` and
`m` cases are disjoint, so this faithfully implements the (deterministic)
regex fragment. -/
def sgrRun : List Char → Option (List Char)
  | [] => none
  | c :: r =>
    if isDigitChar c then sgrRun r
    else if c = 'm' then some r
    else if c = ';' then
      match r with
      | [] => none
      | d :: r₂ => if isDigitChar d then sgrRun r₂ else none
    else none

/-- Match `ESC \[ \d+ (;\d+)* m` at the head of the list, returning the
remainder after the match. -/
def matchSGR : List Char → Option (List Char)
  | e :: b :: d :: r =>
    if e = escChar ∧ b = '[' ∧ isDigitChar d = true then sgrRun r else none
  | _ => none

theorem sgrRun_length_of_le :
    ∀ (n : Nat) (l : List Char), l.length ≤ n →
      ∀ r, sgrRun l = some r → r.length < l.length := by
  intro n
  induction n with
  | zero =>
    intro l hl r h
    match l, hl with
    | [], _ => simp [sgrRun] at h
  | succ n ih =>
    intro l hl r h
    match l with
    | [] => simp [sgrRun] at h
    | c :: t =>
      unfold sgrRun at h
      by_cases hd : isDigitChar c = true
      · rw [if_pos hd] at h
        have ht : t.length ≤ n := by
          simp only [List.length_cons] at hl; omega
        have := ih t ht r h
        simp only [List.length_cons]; omega
      · rw [if_neg hd] at h
        by_cases hm : c = 'm'
        · rw [if_pos hm] at h
          cases h; simp
        · rw [if_neg hm] at h
          by_cases hs : c = ';'
          · rw [if_pos hs] at h
            match t, hl, h with
            | d :: r₂, hl, h =>
              have h' : (if isDigitChar d = true then sgrRun r₂ else none)
                  = some r := h
              by_cases hd₂ : isDigitChar d = true
              · rw [if_pos hd₂] at h'
                have hr₂ : r₂.length ≤ n := by
                  simp only [List.length_cons] at hl; omega
                have := ih r₂ hr₂ r h'
                simp only [List.length_cons]; omega
              · rw [if_neg hd₂] at h'; cases h'
          · rw [if_neg hs] at h; cases h

theorem sgrRun_length_le {l r : List Char} (h : sgrRun l = some r) :
    r.length < l.length :=
  sgrRun_length_of_le l.length l le_rfl r h

theorem matchSGR_none_of_head_ne_esc {c : Char} {r : List Char}
    (h : c ≠ escChar) : matchSGR (c :: r) = none := by
  match r with
  | [] => rfl
  | [a] => rfl
  | b :: d :: t =>
    rw [matchSGR, if_neg]
    intro hx
    exact h hx.1

theorem matchSGR_length {l r : List Char} (h : matchSGR l = some r) :
    r.length < l.length := by
  match l with
  | [] => simp [matchSGR] at h
  | [a] => simp [matchSGR] at h
  | [a, b] => simp [matchSGR] at h
  | a :: b :: d :: t =>
    rw [matchSGR] at h
    split at h
    · have := sgrRun_length_le h
      simp only [List.length_cons]; omega
    · cases h

/-- Fuelled implementation of the global substitution: at each position, try
the escape-sequence pattern; on a match, continue after the removed span,
otherwise keep the character and move one position right.  (This is exactly
`re.sub` with the empty replacement.)  The fuel only serves termination and
is always sufficient at `l.length`. -/
def stripEscFuel : Nat → List Char → List Char
  | 0, l => l
  | _ + 1, [] => []
  | n + 1, c :: r =>
    match matchSGR (c :: r) with
    | some rem => stripEscFuel n rem
    | none => c :: stripEscFuel n r

/-- The embedding of `strip_escape_sequences`. -/
def strip_escape_sequences (l : List Char) : List Char :=
  stripEscFuel l.length l

theorem stripEscFuel_of_not_mem :
    ∀ (n : Nat) (l : List Char), escChar ∉ l → stripEscFuel n l = l := by
  intro n
  induction n with
  | zero => intro l _; rfl
  | succ n ih =>
    intro l h
    match l with
    | [] => rfl
    | c :: r =>
      have hc : c ≠ escChar := fun hx => h (hx ▸ List.mem_cons_self c r)
      have hr : escChar ∉ r := fun hx => h (List.mem_cons_of_mem c hx)
      rw [stripEscFuel, matchSGR_none_of_head_ne_esc hc, ih r hr]

/-- A string without the escape character is left unchanged by the stripper. -/
theorem strip_escape_sequences_of_not_mem {l : List Char} (h : escChar ∉ l) :
    strip_escape_sequences l = l :=
  stripEscFuel_of_not_mem l.length l h

/-! ## Matcher steps

Each timestamp pattern in the source is a fixed regular expression in which
greedy choices are locally deterministic (the character sets that follow an
optional or repeated element are disjoint from those that may continue it),
so `re.match`'s backtracking search coincides with the committed greedy
parse implemented by the combinators below.  A step consumes a prefix and
returns `(consumed, rest)`. -/

def PStep : Type := List Char → Option (List Char × List Char)

/-- Sequencing of two pattern fragments. -/
def pSeq (p q : PStep) : PStep := fun l =>
  match p l with
  | some (a, r) =>
    match q r with
    | some (b, r₂) => some (a ++ b, r₂)
    | none => none
  | none => none

/-- Greedy `X?`. -/
def pOpt (p : PStep) : PStep := fun l =>
  match p l with
  | some x => some x
  | none => some ([], l)

/-- Ordered alternation `X|Y`. -/
def pOr (p q : PStep) : PStep := fun l =>
  match p l with
  | some x => some x
  | none => q l

/-- A single literal character. -/
def pChar (c : Char) : PStep := fun l =>
  match l with
  | x :: r => if x = c then some ([x], r) else none
  | [] => none

/-- A single character from a class. -/
def pIf (f : Char → Bool) : PStep := fun l =>
  match l with
  | x :: r => if f x then some ([x], r) else none
  | [] => none

/-- Exactly `n` characters from a class (e.g. `\d{n}`). -/
def pTakeN (n : Nat) (f : Char → Bool) : PStep := fun l =>
  if (l.take n).length = n ∧ (l.take n).all f = true then
    some (l.take n, l.drop n)
  else none

/-- One or more characters of a class, greedy (e.g. `\d+`). -/
def pMany1 (f : Char → Bool) : PStep := fun l =>
  match l.takeWhile f with
  | [] => none
  | a :: t => some (a :: t, l.dropWhile f)

/-- A step is sound when the consumed part and the rest reassemble the
input. -/
def PSound (p : PStep) : Prop :=
  ∀ l a r, p l = some (a, r) → l = a ++ r

theorem pSeq_sound {p q : PStep} (hp : PSound p) (hq : PSound q) :
    PSound (pSeq p q) := by
  intro l a r h
  unfold pSeq at h
  match hx : p l with
  | some (a₁, r₁) =>
    rw [hx] at h
    have h₁ : (match q r₁ with
      | some (b, r₂) => some (a₁ ++ b, r₂)
      | none => none) = some (a, r) := h
    match hy : q r₁ with
    | some (b₁, r₂) =>
      rw [hy] at h₁
      have h₂ : some (a₁ ++ b₁, r₂) = some (a, r) := h₁
      cases h₂
      rw [hp l a₁ r₁ hx, hq r₁ b₁ _ hy, List.append_assoc]
    | none =>
      rw [hy] at h₁
      exact Option.noConfusion h₁
  | none => rw [hx] at h; exact Option.noConfusion h

theorem pOpt_sound {p : PStep} (hp : PSound p) : PSound (pOpt p) := by
  intro l a r h
  unfold pOpt at h
  match hx : p l with
  | some (a₁, r₁) =>
    rw [hx] at h
    have h₁ : some (a₁, r₁) = some (a, r) := h
    cases h₁
    exact hp l a r hx
  | none =>
    rw [hx] at h
    have h₁ : some (([] : List Char), l) = some (a, r) := h
    cases h₁
    rfl

theorem pOr_sound {p q : PStep} (hp : PSound p) (hq : PSound q) :
    PSound (pOr p q) := by
  intro l a r h
  unfold pOr at h
  match hx : p l with
  | some (a₁, r₁) =>
    rw [hx] at h
    have h₁ : some (a₁, r₁) = some (a, r) := h
    cases h₁
    exact hp l a r hx
  | none =>
    rw [hx] at h
    exact hq l a r h

theorem pChar_sound (c : Char) : PSound (pChar c) := by
  intro l a r h
  match l with
  | x :: t =>
    have h₁ : (if x = c then some ([x], t) else none) = some (a, r) := h
    by_cases hx : x = c
    · rw [if_pos hx] at h₁
      have h₂ : some ([x], t) = some (a, r) := h₁
      cases h₂; rfl
    · rw [if_neg hx] at h₁; exact Option.noConfusion h₁
  | [] => exact Option.noConfusion h

theorem pIf_sound (f : Char → Bool) : PSound (pIf f) := by
  intro l a r h
  match l with
  | x :: t =>
    have h₁ : (if f x = true then some ([x], t) else none) = some (a, r) := h
    by_cases hx : f x = true
    · rw [if_pos hx] at h₁
      have h₂ : some ([x], t) = some (a, r) := h₁
      cases h₂; rfl
    · rw [if_neg hx] at h₁; exact Option.noConfusion h₁
  | [] => exact Option.noConfusion h

theorem pTakeN_sound (n : Nat) (f : Char → Bool) : PSound (pTakeN n f) := by
  intro l a r h
  unfold pTakeN at h
  split at h
  · have h₁ : some (l.take n, l.drop n) = some (a, r) := h
    cases h₁
    exact (List.take_append_drop n l).symm
  · exact Option.noConfusion h

theorem pMany1_sound (f : Char → Bool) : PSound (pMany1 f) := by
  intro l a r h
  unfold pMany1 at h
  match hx : l.takeWhile f with
  | [] =>
    rw [hx] at h
    exact Option.noConfusion h
  | a₁ :: t =>
    rw [hx] at h
    have h₁ : some (a₁ :: t, l.dropWhile f) = some (a, r) := h
    cases h₁
    rw [← hx, List.takeWhile_append_dropWhile]

/-- A step that always consumes a non-empty prefix. -/
def PConsumes (p : PStep) : Prop :=
  ∀ l a r, p l = some (a, r) → a ≠ []

theorem pSeq_consumes_left {p q : PStep} (hp : PConsumes p) :
    PConsumes (pSeq p q) := by
  intro l a r h
  unfold pSeq at h
  match hx : p l with
  | some (a₁, r₁) =>
    rw [hx] at h
    have h₁ : (match q r₁ with
      | some (b, r₂) => some (a₁ ++ b, r₂)
      | none => none) = some (a, r) := h
    match hy : q r₁ with
    | some (b₁, r₂) =>
      rw [hy] at h₁
      have h₂ : some (a₁ ++ b₁, r₂) = some (a, r) := h₁
      cases h₂
      have := hp l a₁ r₁ hx
      intro hc
      exact this (List.append_eq_nil.mp hc).1
    | none =>
      rw [hy] at h₁
      exact Option.noConfusion h₁
  | none => rw [hx] at h; exact Option.noConfusion h

theorem pTakeN_consumes (n : Nat) (f : Char → Bool) (hn : n ≠ 0) :
    PConsumes (pTakeN n f) := by
  intro l a r h
  unfold pTakeN at h
  split at h
  · next hc =>
    have h₁ : some (l.take n, l.drop n) = some (a, r) := h
    cases h₁
    intro hnil
    rw [hnil] at hc
    exact hn hc.1.symm
  · exact Option.noConfusion h

theorem pIf_consumes (f : Char → Bool) : PConsumes (pIf f) := by
  intro l a r h
  match l with
  | x :: t =>
    have h₁ : (if f x = true then some ([x], t) else none) = some (a, r) := h
    by_cases hx : f x = true
    · rw [if_pos hx] at h₁
      have h₂ : some ([x], t) = some (a, r) := h₁
      cases h₂; simp
    · rw [if_neg hx] at h₁; exact Option.noConfusion h₁
  | [] => exact Option.noConfusion h

/-! ## Datetime model

`PyDateTime` models Python `datetime.datetime`; `tzOffset` is the timezone
offset in seconds east of UTC (`none` = naive). -/

structure PyDateTime where
  year : Nat
  month : Nat
  day : Nat
  hour : Nat
  minute : Nat
  second : Nat
  microsecond : Nat
  tzOffset : Option Int
deriving DecidableEq, Repr

/-- `dt.replace(tzinfo=None)`: drop the offset without converting. -/
def dropTz (dt : PyDateTime) : PyDateTime := { dt with tzOffset := none }

/-- `dt.replace(year=y)`. -/
def setYear (dt : PyDateTime) (y : Nat) : PyDateTime := { dt with year := y }

def isLeapYear (y : Nat) : Bool :=
  (y % 4 == 0 && y % 100 != 0) || y % 400 == 0

def daysInMonth (y m : Nat) : Nat :=
  if m = 2 then (if isLeapYear y then 29 else 28)
  else if m = 4 ∨ m = 6 ∨ m = 9 ∨ m = 11 then 30
  else 31

/-- Proleptic Gregorian date of a day count since 1970-01-01 (standard
closed-form civil-from-days computation, all operations on `Nat`). -/
def civilFromDays (z : Nat) : Nat × Nat × Nat :=
  let era := (z + 719468) / 146097
  let doe := (z + 719468) % 146097
  let yoe := (doe - doe / 1460 + doe / 36524 - doe / 146096) / 365
  let y := yoe + era * 400
  let doy := doe - (365 * yoe + yoe / 4 - yoe / 100)
  let mp := (5 * doy + 2) / 153
  let d := doy - (153 * mp + 2) / 5 + 1
  let m := if mp < 10 then mp + 3 else mp - 9
  (if m ≤ 2 then y + 1 else y, m, d)

/-- Modelled from Python's `datetime.fromtimestamp` on whole seconds,
taking the local timezone to be UTC. -/
def epochToDT (t : Nat) : PyDateTime :=
  let ymd := civilFromDays (t / 86400)
  ⟨ymd.1, ymd.2.1, ymd.2.2,
    t % 86400 / 3600, t % 86400 % 3600 / 60, t % 86400 % 60, 0, none⟩

/-! ## Parse routines (`str_to_time` of the individual transformer classes) -/

/-- Modelled from `datetime.fromtimestamp(int(s))` (the `SecondsSinceEpoch`
lambda). -/
def parseSecEpoch (s : List Char) : Option PyDateTime :=
  if s ≠ [] ∧ s.all isDigitChar = true then some (epochToDT (natOfDigits s))
  else none

/-- Modelled from `datetime.fromtimestamp(int(s) / 1000)` (the
`MilliSecondsSinceEpoch` lambda); the millisecond remainder becomes the
microsecond field. -/
def parseMilliEpoch (s : List Char) : Option PyDateTime :=
  if s ≠ [] ∧ s.all isDigitChar = true then
    some { epochToDT (natOfDigits s / 1000) with
             microsecond := natOfDigits s % 1000 * 1000 }
  else none

/-- Microseconds denoted by a fractional-digits string: truncated to six
digits and zero-padded on the right. -/
def fracMicro (frac : List Char) : Nat :=
  natOfDigits (frac.take 6 ++ List.replicate (6 - frac.length) '0')

/-- Modelled from `datetime.fromtimestamp(float(s))` (the
`FloatSecondsSinceEpoch` lambda) for a string of shape `\d{10}\.\d+`,
ignoring binary floating-point rounding of the fraction (no claim
evaluates this routine). -/
def parseFloatEpoch (s : List Char) : Option PyDateTime :=
  match s.dropWhile isDigitChar with
  | '.' :: frac =>
    if frac ≠ [] ∧ frac.all isDigitChar = true then
      some { epochToDT (natOfDigits (s.takeWhile isDigitChar)) with
               microsecond := fracMicro frac }
    else none
  | _ => none

def monthAbbrevsLower : List (List Char) :=
  [("jan".data), ("feb".data), ("mar".data), ("apr".data), ("may".data),
   ("jun".data), ("jul".data), ("aug".data), ("sep".data), ("oct".data),
   ("nov".data), ("dec".data)]

/-- `%b` lookup: case-insensitive three-letter month abbreviation. -/
def monthFromAbbrev (s : List Char) : Option Nat :=
  (List.findIdx? (fun t => t == s.map Char.toLower) monthAbbrevsLower).map
    (· + 1)

/-- One-or-two-digit numeric field of `strptime` (`%d`, `%H`, `%M`, `%S`):
the greedy digit run must have length 1 or 2. -/
def take12Digits (s : List Char) : Option (Nat × List Char) :=
  if (s.takeWhile isDigitChar).length = 0 ∨ 2 < (s.takeWhile isDigitChar).length
  then none
  else some (natOfDigits (s.takeWhile isDigitChar), s.dropWhile isDigitChar)

/-- Whitespace in a `strptime` format string matches one or more whitespace
characters. -/
def skipWs1 (s : List Char) : Option (List Char) :=
  match s with
  | c :: r => if isSpaceChar c then some (r.dropWhile isSpaceChar) else none
  | [] => none

/-- `%H:%M:%S` fields, returning the remainder. -/
def parseHMS (s : List Char) : Option (Nat × Nat × Nat × List Char) :=
  match take12Digits s with
  | some (h, r₁) =>
    match r₁ with
    | ':' :: r₂ =>
      match take12Digits r₂ with
      | some (mi, r₃) =>
        match r₃ with
        | ':' :: r₄ =>
          match take12Digits r₄ with
          | some (se, r₅) => some (h, mi, se, r₅)
          | none => none
        | _ => none
      | none => none
    | _ => none
  | none => none

/-- Modelled from `datetime.strptime(s, "%b %d %H:%M:%S")` (used by `BDHMS`):
the year defaults to 1900, and the whole string must be consumed.  Range
validation mirrors the `datetime` constructor. -/
def strptimeBDHMS (s : List Char) : Option PyDateTime :=
  match monthFromAbbrev (s.take 3) with
  | some m =>
    match skipWs1 (s.drop 3) with
    | some s₁ =>
      match take12Digits s₁ with
      | some (d, s₂) =>
        match skipWs1 s₂ with
        | some s₃ =>
          match parseHMS s₃ with
          | some (h, mi, se, s₄) =>
            if h ≤ 23 ∧ mi ≤ 59 ∧ se ≤ 59 ∧ 1 ≤ d ∧
                d ≤ daysInMonth 1900 m ∧ s₄ = [] then
              some ⟨1900, m, d, h, mi, se, 0, none⟩
            else none
          | none => none
        | none => none
      | none => none
    | none => none
  | none => none

/-- `%d/%b/%Y` date fields, returning `(year, month, day, rest)`. -/
def parseDMonY (s : List Char) : Option (Nat × Nat × Nat × List Char) :=
  match take12Digits s with
  | some (d, r₁) =>
    match r₁ with
    | '/' :: r₂ =>
      match monthFromAbbrev (r₂.take 3) with
      | some m =>
        match r₂.drop 3 with
        | '/' :: r₃ =>
          match pTakeN 4 isDigitChar r₃ with
          | some (ys, r₄) => some (natOfDigits ys, m, d, r₄)
          | none => none
        | _ => none
      | none => none
    | _ => none
  | none => none

/-- Modelled from `datetime.strptime(s, "%d/%b/%Y %H:%M:%S")` (used by
`PythonHttpServerLog`). -/
def strptimePyHttp (s : List Char) : Option PyDateTime :=
  match parseDMonY s with
  | some (y, m, d, r₁) =>
    match skipWs1 r₁ with
    | some r₂ =>
      match parseHMS r₂ with
      | some (h, mi, se, r₃) =>
        if h ≤ 23 ∧ mi ≤ 59 ∧ se ≤ 59 ∧ 1 ≤ d ∧
            d ≤ daysInMonth y m ∧ r₃ = [] then
          some ⟨y, m, d, h, mi, se, 0, none⟩
        else none
      | none => none
    | none => none
  | none => none

/-- `%z`: sign, two-digit hours, optional colon, two-digit minutes; the
resulting offset must stay strictly below 24 hours (the `timezone`
constructor's bound). -/
def parseZOffset (s : List Char) : Option (Int × List Char) :=
  match s with
  | c :: r =>
    if c = '+' ∨ c = '-' then
      match pTakeN 2 isDigitChar r with
      | some (hs, r₁) =>
        match pTakeN 2 isDigitChar (if r₁.head? = some ':' then r₁.drop 1 else r₁) with
        | some (ms, r₂) =>
          if natOfDigits hs * 60 + natOfDigits ms < 1440 then
            some ((if c = '-' then -1 else 1) *
                    ((natOfDigits hs * 3600 + natOfDigits ms * 60 : Nat) : Int),
                  r₂)
          else none
        | none => none
      | none => none
    else none
  | [] => none

/-- Modelled from `datetime.strptime(s, "%d/%b/%Y:%H:%M:%S %z")` (used by
`HttpServerAccessLog`); the result carries the parsed offset. -/
def strptimeAccess (s : List Char) : Option PyDateTime :=
  match parseDMonY s with
  | some (y, m, d, r₁) =>
    match r₁ with
    | ':' :: r₂ =>
      match parseHMS r₂ with
      | some (h, mi, se, r₃) =>
        match skipWs1 r₃ with
        | some r₄ =>
          match parseZOffset r₄ with
          | some (off, r₅) =>
            if h ≤ 23 ∧ mi ≤ 59 ∧ se ≤ 59 ∧ 1 ≤ d ∧
                d ≤ daysInMonth y m ∧ r₅ = [] then
              some ⟨y, m, d, h, mi, se, 0, some off⟩
            else none
          | none => none
        | none => none
      | none => none
    | _ => none
  | none => none

/-- Fractional seconds of an ISO string: optional `.` or `,` followed by one
or more digits (none = a marker with no digits, a parse error). -/
def isoFrac : List Char → Option (Nat × List Char)
  | [] => some (0, [])
  | c :: r =>
    if c = '.' ∨ c = ',' then
      match r.takeWhile isDigitChar with
      | [] => none
      | _ :: _ => some (fracMicro (r.takeWhile isDigitChar),
                        r.dropWhile isDigitChar)
    else some (0, c :: r)

/-- Timezone suffix of an ISO string: empty, `Z`, or `±HH[[:]MM]`, with the
offset strictly below 24 hours. -/
def isoTz (r : List Char) : Option (Option Int × List Char) :=
  match r with
  | [] => some (none, [])
  | c :: r₁ =>
    if c = 'Z' then some (some 0, r₁)
    else if c = '+' ∨ c = '-' then
      match pTakeN 2 isDigitChar r₁ with
      | none => none
      | some (hs, r₂) =>
        match pTakeN 2 isDigitChar
            (if r₂.head? == some ':' then r₂.drop 1 else r₂) with
        | some (ms, r₄) =>
          if natOfDigits hs * 60 + natOfDigits ms < 1440 then
            some (some ((if c = '-' then -1 else 1) *
                    ((natOfDigits hs * 3600 + natOfDigits ms * 60 : Nat) : Int)),
                  r₄)
          else none
        | none =>
          if r₂.head? == some ':' then none
          else if natOfDigits hs < 24 then
            some (some ((if c = '-' then -1 else 1) *
                    ((natOfDigits hs * 3600 : Nat) : Int)), r₂)
          else none
    else none

/-- `HH[:]MM[:]SS` time components with optional fraction, returning
`(hour, minute, second, microsecond, rest)`. -/
def isoTimeCore (r : List Char) : Option (Nat × Nat × Nat × Nat × List Char) :=
  match pTakeN 2 isDigitChar r with
  | none => none
  | some (hs, r₁) =>
    match pTakeN 2 isDigitChar
        (if r₁.head? == some ':' then r₁.drop 1 else r₁) with
    | none =>
      if r₁.head? == some ':' then none
      else some (natOfDigits hs, 0, 0, 0, r₁)
    | some (ms, r₂) =>
      match pTakeN 2 isDigitChar
          (if r₂.head? == some ':' then r₂.drop 1 else r₂) with
      | none =>
        if r₂.head? == some ':' then none
        else some (natOfDigits hs, natOfDigits ms, 0, 0, r₂)
      | some (ss, r₃) =>
        match isoFrac r₃ with
        | some (micro, r₄) =>
          some (natOfDigits hs, natOfDigits ms, natOfDigits ss, micro, r₄)
        | none => none

/-- Modelled from Python 3.11 `datetime.fromisoformat` (the
`ISOFormat.strptime_format` function), restricted to the string forms the
ISO pattern's capture group can produce: date `YYYY[-]MM[-]DD` (separators
used consistently), an optional single separator character before the time,
time `HH[:]MM[:]SS`, optional fractional seconds after `.` or `,`
(truncated to microseconds), and an optional offset `Z` or `±HH[[:]MM]`.
Range and calendar validation mirror the `datetime` constructor; an
invalid string yields `none` (a raised `ValueError`). -/
def pyFromisoformat (s : List Char) : Option PyDateTime :=
  match pTakeN 4 isDigitChar s with
  | none => none
  | some (ys, r₀) =>
    match pTakeN 2 isDigitChar
        (if r₀.head? == some '-' then r₀.drop 1 else r₀) with
    | none => none
    | some (mos, r₂) =>
      match pTakeN 2 isDigitChar
          (if r₀.head? == some '-' then
            (if r₂.head? == some '-' then r₂.drop 1 else [])
           else r₂) with
      | none => none
      | some (ds, r₄) =>
        if 1 ≤ natOfDigits mos ∧ natOfDigits mos ≤ 12 ∧ 1 ≤ natOfDigits ds ∧
            natOfDigits ds ≤ daysInMonth (natOfDigits ys) (natOfDigits mos) then
          match r₄ with
          | [] => some ⟨natOfDigits ys, natOfDigits mos, natOfDigits ds,
                        0, 0, 0, 0, none⟩
          | _ :: r₅ =>
            match isoTimeCore r₅ with
            | none => none
            | some (h, mi, se, micro, r₆) =>
              match isoTz r₆ with
              | none => none
              | some (off, r₇) =>
                if h ≤ 23 ∧ mi ≤ 59 ∧ se ≤ 59 ∧ r₇ = [] then
                  some ⟨natOfDigits ys, natOfDigits mos, natOfDigits ds,
                        h, mi, se, micro, off⟩
                else none
        else none

/-! ## The seven built-in patterns as matchers

A match result records capture group 1 (`g1`, used by the `\1` strip
replacement of the bracket-log variants), the timestamp capture group
(`ts`), the full matched span (`consumed`) and the remainder of the line
(`rest`). -/

structure MatchResult where
  g1 : List Char
  ts : List Char
  consumed : List Char
  rest : List Char
deriving DecidableEq, Repr

/-- Matcher for the five patterns of shape `((core)\s)`: the timestamp
capture group followed by one whitespace character.  Group 1 is the whole
match. -/
def simpleMatch (core : PStep) (l : List Char) : Option MatchResult :=
  match core l with
  | some (ts, r) =>
    match pIf isSpaceChar r with
    | some (c, r₂) => some ⟨ts ++ c, ts, ts ++ c, r₂⟩
    | none => none
  | none => none

/-- The timestamp capture group of `ISOFormat.pattern`, which under
`re.VERBOSE` reads
`\d{4}-?\d{2}-?\d{2}[T\s]?\d{2}:?\d{2}:?\d{2}(?:[,.]\d+)?(?:Z|[+-]\d{2}:?(?:\d{2})?)?`. -/
def isoCore : PStep :=
  pSeq (pTakeN 4 isDigitChar)
    (pSeq (pOpt (pChar '-'))
      (pSeq (pTakeN 2 isDigitChar)
        (pSeq (pOpt (pChar '-'))
          (pSeq (pTakeN 2 isDigitChar)
            (pSeq (pOpt (pIf (fun c => c = 'T' || isSpaceChar c)))
              (pSeq (pTakeN 2 isDigitChar)
                (pSeq (pOpt (pChar ':'))
                  (pSeq (pTakeN 2 isDigitChar)
                    (pSeq (pOpt (pChar ':'))
                      (pSeq (pTakeN 2 isDigitChar)
                        (pSeq
                          (pOpt (pSeq (pIf (fun c => c = ',' || c = '.'))
                            (pMany1 isDigitChar)))
                          (pOpt (pOr (pChar 'Z')
                            (pSeq (pIf (fun c => c = '+' || c = '-'))
                              (pSeq (pTakeN 2 isDigitChar)
                                (pSeq (pOpt (pChar ':'))
                                  (pOpt (pTakeN 2 isDigitChar))))))))))))))))))

/-- `BDHMS.timestamp_pattern`:
`[JFMASOND][a-z]{2}\s(\s|\d)\d\s\d{2}:\d{2}:\d{2}`. -/
def bdhmsCore : PStep :=
  pSeq (pIf (fun c => c = 'J' || c = 'F' || c = 'M' || c = 'A' ||
                      c = 'S' || c = 'O' || c = 'N' || c = 'D'))
    (pSeq (pTakeN 2 (fun c => 'a' ≤ c && c ≤ 'z'))
      (pSeq (pIf isSpaceChar)
        (pSeq (pOr (pIf isSpaceChar) (pIf isDigitChar))
          (pSeq (pIf isDigitChar)
            (pSeq (pIf isSpaceChar)
              (pSeq (pTakeN 2 isDigitChar)
                (pSeq (pChar ':')
                  (pSeq (pTakeN 2 isDigitChar)
                    (pSeq (pChar ':') (pTakeN 2 isDigitChar))))))))))

/-- `\d{2}:\d{2}:\d{2}`. -/
def hmsCore : PStep :=
  pSeq (pTakeN 2 isDigitChar)
    (pSeq (pChar ':')
      (pSeq (pTakeN 2 isDigitChar)
        (pSeq (pChar ':') (pTakeN 2 isDigitChar))))

/-- `PythonHttpServerLog.timestamp_pattern`:
`\d{2}\/\w+\/\d{4}\s\d{2}:\d{2}:\d{2}`. -/
def pyHttpCore : PStep :=
  pSeq (pTakeN 2 isDigitChar)
    (pSeq (pChar '/')
      (pSeq (pMany1 isWordChar)
        (pSeq (pChar '/')
          (pSeq (pTakeN 4 isDigitChar)
            (pSeq (pIf isSpaceChar) hmsCore)))))

/-- `HttpServerAccessLog.timestamp_pattern`:
`\d{2}\/\w+\/\d{4}:\d{2}:\d{2}:\d{2}\s[+-]\d{4}`. -/
def accessCore : PStep :=
  pSeq (pTakeN 2 isDigitChar)
    (pSeq (pChar '/')
      (pSeq (pMany1 isWordChar)
        (pSeq (pChar '/')
          (pSeq (pTakeN 4 isDigitChar)
            (pSeq (pChar ':')
              (pSeq hmsCore
                (pSeq (pIf isSpaceChar)
                  (pSeq (pIf (fun c => c = '+' || c = '-'))
                    (pTakeN 4 isDigitChar)))))))))

/-- `FloatSecondsSinceEpoch.timestamp_pattern`: `\d{10}\.\d+`. -/
def floatCore : PStep :=
  pSeq (pTakeN 10 isDigitChar) (pSeq (pChar '.') (pMany1 isDigitChar))

/-- `MilliSecondsSinceEpoch.timestamp_pattern`: `\d{13}`. -/
def milliCore : PStep := pTakeN 13 isDigitChar

/-- `SecondsSinceEpoch.timestamp_pattern`: `\d{10}`. -/
def secCore : PStep := pTakeN 10 isDigitChar

/-- The tail `-\s\[(core)\]\s` of the two bracket-log patterns, returning
the timestamp capture group and the remainder. -/
def bracketTail (core : PStep) (l : List Char) :
    Option (List Char × List Char) :=
  match l with
  | a :: c :: b :: r =>
    if a = '-' ∧ isSpaceChar c = true ∧ b = '[' then
      match core r with
      | some (ts, r₂) =>
        match r₂ with
        | d :: c₂ :: r₃ =>
          if d = ']' ∧ isSpaceChar c₂ = true then some (ts, r₃) else none
        | _ => none
      | none => none
    else none
  | _ => none

/-- Search for the split of `(.*)(-\s\[(ts)\]\s)`: `.*` is greedy, so the
longest admissible prefix is tried first (`k` characters, descending). -/
def tryBracket (core : PStep) (l : List Char) : Nat → Option MatchResult
  | 0 =>
    match bracketTail core l with
    | some (ts, rest) =>
      some ⟨[], ts, l.take (l.length - rest.length), rest⟩
    | none => none
  | k + 1 =>
    match bracketTail core (l.drop (k + 1)) with
    | some (ts, rest) =>
      some ⟨l.take (k + 1), ts, l.take (l.length - rest.length), rest⟩
    | none => tryBracket core l k

/-- Matcher for the bracket-log patterns `(.*)(-\s\[(ts)\]\s)`: `.` does not
match a newline, so the prefix is bounded by the first newline. -/
def matchBracket (core : PStep) (l : List Char) : Option MatchResult :=
  tryBracket core l ((l.takeWhile (fun c => c ≠ '\n')).length)

/-- The seven built-in transformer subclasses, in definition order (the
order `__subclasses__()` reports and hence the detection precedence). -/
inductive VariantId
  | iso | bdhms | pyHttp | accessLog | floatEpoch | milliEpoch | secEpoch
deriving DecidableEq, Repr

/-- The compiled class pattern's `match`, per subclass. -/
def variantMatch : VariantId → List Char → Option MatchResult
  | .iso => simpleMatch isoCore
  | .bdhms => simpleMatch bdhmsCore
  | .pyHttp => matchBracket pyHttpCore
  | .accessLog => matchBracket accessCore
  | .floatEpoch => simpleMatch floatCore
  | .milliEpoch => simpleMatch milliCore
  | .secEpoch => simpleMatch secCore

/-- Registration (definition) order of the built-in subclasses. -/
def registrationOrder : List VariantId :=
  [.iso, .bdhms, .pyHttp, .accessLog, .floatEpoch, .milliEpoch, .secEpoch]

/-- First variant in the given order whose pattern matches the line. -/
def firstMatch : List VariantId → List Char → Option VariantId
  | [], _ => none
  | v :: vs, s =>
    if (variantMatch v s).isSome then some v else firstMatch vs s

/-- `TimestampedLineTransformer.make_transformer_from_sample_line`: try the
registered subclasses in order; `none` models the raised `ValueError`
("no match for any timestamp pattern"). -/
def make_transformer_from_sample_line (s : List Char) : Option VariantId :=
  firstMatch registrationOrder s

/-! ## The per-line transformer call -/

inductive CallOutcome
  | parseError
  | ok (ts : Option PyDateTime) (residual : List Char)
deriving DecidableEq, Repr

/-- `str_to_time` of the bound instance, per subclass (the
`HttpServerAccessLog` constructor wraps its strptime in a lambda that drops
the parsed offset). -/
def subclsStrToTime : VariantId → List Char → Option PyDateTime
  | .iso => pyFromisoformat
  | .bdhms => strptimeBDHMS
  | .pyHttp => strptimePyHttp
  | .accessLog => fun s => (strptimeAccess s).map dropTz
  | .floatEpoch => parseFloatEpoch
  | .milliEpoch => parseMilliEpoch
  | .secEpoch => parseSecEpoch

/-- `sub_repl` per subclass: `"\1"` (keep capture group 1) for the two
bracket-log variants, the class default `""` otherwise. -/
def keepsLeading : VariantId → Bool
  | .pyHttp => true
  | .accessLog => true
  | _ => false

/-- `has_timezone` per subclass: only `ISOFormat` overrides the class
default `False`. -/
def hasTimezone : VariantId → Bool
  | .iso => true
  | _ => false

/-- `TimestampedLineTransformer.__call__`.  On a match: the single leftmost
substitution of the pattern by `sub_repl` replaces the matched span (which
starts at position 0) by group 1 or by nothing, then the result is
right-stripped; the timestamp group is parsed (`none` models the raised
exception); if `has_timezone`, the timestamp is normalized to naive; the
residual is escape-stripped and right-stripped again.  On no match: the
timestamp is `None` and the residual is the line with one space prepended,
passed through the same escape-stripping and right-stripping. -/
def baseCall (v : VariantId) (line : List Char) : CallOutcome :=
  match variantMatch v line with
  | some r =>
    match subclsStrToTime v r.ts with
    | none => .parseError
    | some dt =>
      .ok (some (if hasTimezone v then dropTz dt else dt))
        (rstrip (strip_escape_sequences
          (rstrip ((if keepsLeading v then r.g1 else []) ++ r.rest))))
  | none => .ok none (rstrip (strip_escape_sequences (' ' :: line)))

/-- The year chosen by `BDHMS.__call__`: the file's creation-time year when
file info was attached and `st_ctime` is non-zero (Python truthiness of
`self.file_stat is not None and self.file_stat.st_ctime`), else the
current year.  `fileCtime` models `file_stat.st_ctime` in whole seconds
(`none` = no file info attached); `nowYear` models `datetime.now().year`. -/
def bdhmsYear (fileCtime : Option Nat) (nowYear : Nat) : Nat :=
  match fileCtime with
  | some t => if t ≠ 0 then (epochToDT t).year else nowYear
  | none => nowYear

/-- The bound transformer applied to one line.  `BDHMS.__call__` overrides
the base call, substituting `bdhmsYear` into the parsed timestamp. -/
def transformerCall (v : VariantId) (fileCtime : Option Nat) (nowYear : Nat)
    (line : List Char) : CallOutcome :=
  match v with
  | .bdhms =>
    match baseCall .bdhms line with
    | .ok (some dt) res =>
      .ok (some (setYear dt (bdhmsYear fileCtime nowYear))) res
    | out => out
  | v => baseCall v line

/-! ## The custom-format compiler (`make_custom_transformers`) -/

/-- `strptime_format` class attribute: `ISOFormat` stores the function
`fromisoformat`; every other class stores a (possibly empty) format
string. -/
inductive FormatterTag
  | isoFunc
  | fmt (s : List Char)
deriving DecidableEq, Repr

/-- The class-level attributes of a built-in transformer subclass consulted
by `make_custom_transformers`. -/
structure SubclsInfo where
  name : List Char
  timestamp_pattern : List Char
  pattern : List Char
  strptime_format : FormatterTag
deriving DecidableEq, Repr

def bdhmsTsPattern : List Char :=
  ("[JFMASOND][a-z]{2}\\s(\\s|\\d)\\d\\s\\d{2}:\\d{2}:\\d{2}").data

def pyHttpTsPattern : List Char :=
  ("\\d{2}\\/\\w+\\/\\d{4}\\s\\d{2}:\\d{2}:\\d{2}").data

def accessTsPattern : List Char :=
  ("\\d{2}\\/\\w+\\/\\d{4}:\\d{2}:\\d{2}:\\d{2}\\s[+-]\\d{4}").data

def floatTsPattern : List Char := ("\\d{10}\\.\\d+").data

def milliTsPattern : List Char := ("\\d{13}").data

def secTsPattern : List Char := ("\\d{10}").data

/-- The verbose multi-line `ISOFormat.pattern` literal. -/
def isoPatternStr : List Char :=
  ("(  # Begin timestamp + message group\n        (      # Begin timestamp capture group\n        \\d{4}  # Year\n        -?     # Optional separator\n        \\d{2}  # Month\n        -?     # Optional separator\n        \\d{2}  # Day\n        [T\\s]? # Optional separator\n        \\d{2}  # Hour\n        :?     # Optional separator\n        \\d{2}  # Minute\n        :?     # Optional separator\n        \\d{2}  # Second\n        (?:[,.]\\d+)?  # Optionally, include sub-second precision and separator\n        (?:Z|[+-]\\d{2}:?(?:\\d{2})?)?  # Optionally, timezone offset\n        )      # End timestamp capture group\n    \\s) # End timestamp + message group").data

/-- The seven built-in subclasses with the class attributes the compiler
reads.  `ISOFormat` never assigns `timestamp_pattern`, so it exposes the
base-class default `""`; the f-string patterns are reproduced by
concatenation as in the source. -/
def builtinSubclasses : List SubclsInfo :=
  [⟨("ISOFormat").data, [], isoPatternStr, .isoFunc⟩,
   ⟨("BDHMS").data, bdhmsTsPattern,
     ("((").data ++ bdhmsTsPattern ++ (")\\s)").data,
     .fmt (("%b %d %H:%M:%S").data)⟩,
   ⟨("PythonHttpServerLog").data, pyHttpTsPattern,
     ("(.*)(-\\s\\[(").data ++ pyHttpTsPattern ++ (")\\]\\s)").data,
     .fmt (("%d/%b/%Y %H:%M:%S").data)⟩,
   ⟨("HttpServerAccessLog").data, accessTsPattern,
     ("(.*)(-\\s\\[(").data ++ accessTsPattern ++ (")\\]\\s)").data,
     .fmt (("%d/%b/%Y:%H:%M:%S %z").data)⟩,
   ⟨("FloatSecondsSinceEpoch").data, floatTsPattern,
     ("((").data ++ floatTsPattern ++ (")\\s)").data, .fmt []⟩,
   ⟨("MilliSecondsSinceEpoch").data, milliTsPattern,
     ("((").data ++ milliTsPattern ++ (")\\s)").data, .fmt []⟩,
   ⟨("SecondsSinceEpoch").data, secTsPattern,
     ("((").data ++ secTsPattern ++ (")\\s)").data, .fmt []⟩]

/-- A synthesized custom transformer class: the `class_properties` dict plus
the generated class name. -/
structure CustomDesc where
  name : List Char
  pattern : List Char
  timestamp_pattern : List Char
  timestamp_match_group : Nat
  sub_repl : List Char
  strptime_format : FormatterTag
deriving DecidableEq, Repr

/-- Python `str.replace` (every non-overlapping leftmost occurrence), with
fuel for termination; the fuel `s.length` is always sufficient for a
non-empty pattern. -/
def strReplaceFuel : Nat → List Char → List Char → List Char → List Char
  | 0, s, _, _ => s
  | _ + 1, [], _, _ => []
  | n + 1, c :: s, pat, rep =>
    if pat.isPrefixOf (c :: s) then
      rep ++ strReplaceFuel n ((c :: s).drop pat.length) pat rep
    else c :: strReplaceFuel n s pat rep

def strReplace (s pat rep : List Char) : List Char :=
  strReplaceFuel s.length s pat rep

/-- Mutable class-level state of `TimestampedLineTransformer` used by the
compiler: the `custom_transformers` list and the position reached in the
shared `custom_transformer_suffixes` iterator. -/
structure CompilerState where
  customs : List CustomDesc
  suffixIdx : Nat
deriving DecidableEq, Repr

def initCompilerState : CompilerState := ⟨[], 0⟩

/-- `string.ascii_uppercase`: the 26 letters of the shared suffix
iterator. -/
def suffixLetters : List Char := ("ABCDEFGHIJKLMNOPQRSTUVWXYZ").data

inductive CompileErr
  | invalidTemplate
  | stopIteration
deriving DecidableEq, Repr

/-- Python's substring test `pat in s`. -/
def listIsInfixOf (p : List Char) : List Char → Bool
  | [] => p.isEmpty
  | c :: r => p.isPrefixOf (c :: r) || listIsInfixOf p r

/-- `"..." not in custom_timestamp[:custom_timestamp.find(")")]`: the
template is known to contain `"(...)"` and hence a `)`, so the slice is the
prefix before the first closing parenthesis. -/
def has_initial_content (tpl : List Char) : Bool :=
  !(listIsInfixOf (("...").data) (tpl.takeWhile (fun c => c ≠ ')')))

/-- The synthesized class for built-in subclass `sc` and suffix `letter`:
`pattern` is the template with `"..."` replaced by the subclass's
`timestamp_pattern`; `timestamp_pattern` is set to the subclass's full
`pattern`; group index and replacement depend on `has_initial_content`. -/
def mkCustomDesc (hasInit : Bool) (tpl : List Char) (sc : SubclsInfo)
    (letter : Char) : CustomDesc :=
  ⟨("Custom").data ++ sc.name ++ ['_', letter],
   strReplace tpl (("...").data) sc.timestamp_pattern,
   sc.pattern,
   if hasInit then 3 else 2,
   if hasInit then ("\\1").data else [],
   sc.strptime_format⟩

/-- The loop of `make_custom_transformers` over
`TimestampedLineTransformer.__subclasses__()` — the built-ins followed by
the previously synthesized classes, which are members of
`custom_transformers` and therefore skipped.  Each synthesis draws the next
letter from the shared iterator and appends the new class; an exhausted
iterator raises `StopIteration`, leaving the classes appended so far in
place. -/
def synthLoop (hasInit : Bool) (tpl : List Char) :
    List (SubclsInfo ⊕ CustomDesc) → CompilerState →
      CompilerState × Option CompileErr
  | [], st => (st, none)
  | Sum.inr _ :: rest, st => synthLoop hasInit tpl rest st
  | Sum.inl sc :: rest, st =>
    if h : st.suffixIdx < suffixLetters.length then
      synthLoop hasInit tpl rest
        ⟨st.customs ++
           [mkCustomDesc hasInit tpl sc (suffixLetters.get ⟨st.suffixIdx, h⟩)],
         st.suffixIdx + 1⟩
    else (st, some .stopIteration)

/-- `TimestampedLineTransformer.make_custom_transformers`: reject a template
without the `"(...)"` placeholder before touching any state, otherwise run
the synthesis loop over the current subclass snapshot. -/
def make_custom_transformers (st : CompilerState) (tpl : List Char) :
    CompilerState × Option CompileErr :=
  if listIsInfixOf (("(...)").data) tpl then
    synthLoop (has_initial_content tpl) tpl
      (builtinSubclasses.map Sum.inl ++ st.customs.map Sum.inr) st
  else (st, some .invalidTemplate)

/-- Follows the spec's template grammar: a template is `((...)x)` (no
leading group) or `(leading)((...)x)`; returns `some none` for the first
shape and `some (some leading)` for the second.  This is the
specification-side reading of "literal content precedes the placeholder's
enclosing group", used to compare the spec's criterion with the code's
textual test. -/
def templateLeading (tpl : List Char) : Option (Option (List Char)) :=
  if (("((...)").data).isPrefixOf tpl then some none
  else
    match tpl with
    | c :: r =>
      if c = '(' then
        if (("((...)").data).isPrefixOf
            ((r.dropWhile (fun x => x ≠ ')')).drop 1) then
          some (some (r.takeWhile (fun x => x ≠ ')')))
        else none
      else none
    | [] => none

/-- The spec's criterion: non-empty literal content precedes the
placeholder's enclosing group. -/
def specNonemptyLeading (tpl : List Char) : Bool :=
  match templateLeading tpl with
  | some (some (_ :: _)) => true
  | _ => false

/-- The pattern of the first class synthesized from the template
`(\w+ - )((...) )`: the ISO subclass contributes `timestamp_pattern = ""`
(it never overrides the base-class default), so the compiled pattern is
`(\w+ - )(() )`, which under `re.VERBOSE` (whitespace ignored) matches
`\w+` followed by a literal `-`, with empty groups 2 and 3. -/
def matchCustomIsoA (l : List Char) : Option MatchResult :=
  match pSeq (pMany1 isWordChar) (pChar '-') l with
  | some (g1, r) => some ⟨g1, [], g1, r⟩
  | none => none

/-- `__call__` of the synthesized `CustomISOFormat_A` class: it inherits
`ISOFormat.__init__` (so `str_to_time = fromisoformat` and
`has_timezone = True`) and carries `timestamp_match_group = 3` (the empty
inner group) and `sub_repl = "\1"` from the compiled class properties. -/
def customIsoACall (line : List Char) : CallOutcome :=
  match matchCustomIsoA line with
  | some r =>
    match pyFromisoformat r.ts with
    | none => .parseError
    | some dt =>
      .ok (some (dropTz dt))
        (rstrip (strip_escape_sequences (rstrip (r.g1 ++ r.rest))))
  | none => .ok none (rstrip (strip_escape_sequences (' ' :: line)))

/-! ## Supporting lemmas -/

theorem rstrip_prefix_self (l : List Char) : rstrip l <+: l := by
  unfold rstrip
  have h : l.reverse.dropWhile isSpaceChar <:+ l.reverse :=
    List.dropWhile_suffix isSpaceChar
  have h₂ : ((l.reverse.dropWhile isSpaceChar).reverse).reverse <:+ l.reverse := by
    rwa [List.reverse_reverse]
  exact List.reverse_suffix.mp h₂

theorem rstrip_cons_of {l : List Char} (c : Char)
    (hr : rstrip l = l) (hne : l ≠ []) : rstrip (c :: l) = c :: l := by
  have hrev : l.reverse.dropWhile isSpaceChar = l.reverse := by
    have := congrArg List.reverse hr
    rwa [rstrip, List.reverse_reverse] at this
  match hx : l.reverse with
  | [] =>
    exact absurd (by simpa using congrArg List.reverse hx) hne
  | a :: t =>
    have ha : isSpaceChar a = false := by
      by_contra hcon
      have ha' : isSpaceChar a = true := by
        cases hy : isSpaceChar a
        · exact absurd hy hcon
        · rfl
      rw [hx, List.dropWhile_cons, if_pos ha'] at hrev
      have hlen := congrArg List.length hrev
      have hsub : t.dropWhile isSpaceChar <:+ t := List.dropWhile_suffix isSpaceChar
      have := hsub.sublist.length_le
      simp only [List.length_cons] at hlen
      omega
    rw [rstrip, List.reverse_cons, hx, List.cons_append, List.dropWhile_cons,
      if_neg (by simp [ha])]
    rw [← List.cons_append, ← hx, ← List.reverse_cons, List.reverse_reverse]

theorem listIsInfixOf_iff :
    ∀ (l p : List Char), listIsInfixOf p l = true ↔ p <:+: l := by
  intro l
  induction l with
  | nil =>
    intro p
    rw [listIsInfixOf, List.isEmpty_iff, List.infix_nil]
  | cons c r ih =>
    intro p
    rw [listIsInfixOf, Bool.or_eq_true, List.isPrefixOf_iff_prefix, ih,
      List.infix_cons_iff]

theorem exists_drop_of_infix {p l : List Char} (h : p <:+: l) :
    ∃ i, i ≤ l.length ∧ p <+: l.drop i := by
  obtain ⟨s, t, rfl⟩ := h
  refine ⟨s.length, by simp, ?_⟩
  rw [List.append_assoc, List.drop_left]
  exact List.prefix_append p t

/-- `p` occurs at no two distinct positions of `s`.  Together with an
occurrence obtained from a pattern match, this expresses "the raw timestamp
substring occurs exactly once in the line". -/
def occursUniquely (p s : List Char) : Prop :=
  ∀ i < s.length + 1, ∀ j < s.length + 1,
    p <+: s.drop i → p <+: s.drop j → i = j

instance (p s : List Char) : Decidable (occursUniquely p s) := by
  unfold occursUniquely
  infer_instance

/-- Key lemma for the residual claims: if the line splits into a matched
span containing the timestamp followed by the rest, the line has no escape
character and the timestamp occurs at only one position, then the residual
(rest right-stripped, escape-stripped, right-stripped) cannot contain the
timestamp. -/
theorem residual_not_contains_core
    {pre rest ts line : List Char}
    (hline : line = pre ++ rest) (hts : ts <+: pre) (hne : ts ≠ [])
    (hesc : escChar ∉ line) (huniq : occursUniquely ts line) :
    ¬ ts <:+: rstrip (strip_escape_sequences (rstrip rest)) := by
  intro hinf
  have hescr : escChar ∉ rest := fun hm =>
    hesc (hline ▸ List.mem_append_right pre hm)
  have h1 : rstrip rest <+: rest := rstrip_prefix_self rest
  have hescr2 : escChar ∉ rstrip rest := fun hm => hescr (h1.subset hm)
  rw [strip_escape_sequences_of_not_mem hescr2] at hinf
  have h2 : rstrip (rstrip rest) <+: rest :=
    (rstrip_prefix_self (rstrip rest)).trans h1
  have h3 : ts <:+: rest := hinf.trans h2.isInfix
  obtain ⟨j, hj, hpj⟩ := exists_drop_of_infix h3
  have h0 : ts <+: line.drop 0 := by
    rw [List.drop_zero, hline]
    exact hts.trans (List.prefix_append pre rest)
  have hj2 : ts <+: line.drop (pre.length + j) := by
    rw [hline, ← List.drop_drop, List.drop_left]
    exact hpj
  have hlen : line.length = pre.length + rest.length := by
    rw [hline, List.length_append]
  have hb : pre.length + j < line.length + 1 := by omega
  have h00 : (0 : Nat) < line.length + 1 := by omega
  have heq := huniq 0 h00 (pre.length + j) hb h0 hj2
  have hpre : pre.length = 0 := by omega
  have : ts <+: ([] : List Char) := by
    rw [List.length_eq_zero.mp hpre] at hts
    exact hts
  exact hne (List.prefix_nil.mp this)

theorem simpleMatch_structure {core : PStep} (hs : PSound core)
    (hc : PConsumes core) {l : List Char} {r : MatchResult}
    (h : simpleMatch core l = some r) :
    l = r.consumed ++ r.rest ∧ r.ts <+: r.consumed ∧ r.ts ≠ [] := by
  unfold simpleMatch at h
  match hx : core l with
  | some (ts, rr) =>
    rw [hx] at h
    have h₁ : (match pIf isSpaceChar rr with
      | some (c, r₂) => some (⟨ts ++ c, ts, ts ++ c, r₂⟩ : MatchResult)
      | none => none) = some r := h
    match hy : pIf isSpaceChar rr with
    | some (cs, r₂) =>
      rw [hy] at h₁
      have h₃ : (⟨ts ++ cs, ts, ts ++ cs, r₂⟩ : MatchResult) = r :=
        Option.some.inj h₁
      cases h₃
      refine ⟨?_, ⟨cs, rfl⟩, hc l ts rr hx⟩
      rw [hs l ts rr hx, pIf_sound isSpaceChar rr cs r₂ hy]
      simp
    | none =>
      rw [hy] at h₁
      exact Option.noConfusion h₁
  | none => rw [hx] at h; exact Option.noConfusion h

theorem isoCore_sound : PSound isoCore := by
  unfold isoCore
  repeat
    first
    | apply pSeq_sound
    | apply pOpt_sound
    | apply pOr_sound
    | apply pChar_sound
    | apply pIf_sound
    | apply pTakeN_sound
    | apply pMany1_sound

theorem bdhmsCore_sound : PSound bdhmsCore := by
  unfold bdhmsCore
  repeat
    first
    | apply pSeq_sound
    | apply pOpt_sound
    | apply pOr_sound
    | apply pChar_sound
    | apply pIf_sound
    | apply pTakeN_sound
    | apply pMany1_sound

theorem floatCore_sound : PSound floatCore := by
  unfold floatCore
  repeat
    first
    | apply pSeq_sound
    | apply pChar_sound
    | apply pTakeN_sound
    | apply pMany1_sound

theorem milliCore_sound : PSound milliCore := pTakeN_sound 13 isDigitChar

theorem secCore_sound : PSound secCore := pTakeN_sound 10 isDigitChar

theorem isoCore_consumes : PConsumes isoCore := by
  unfold isoCore
  exact pSeq_consumes_left (pTakeN_consumes 4 isDigitChar (by omega))

theorem bdhmsCore_consumes : PConsumes bdhmsCore := by
  unfold bdhmsCore
  exact pSeq_consumes_left (pIf_consumes _)

theorem floatCore_consumes : PConsumes floatCore := by
  unfold floatCore
  exact pSeq_consumes_left (pTakeN_consumes 10 isDigitChar (by omega))

theorem milliCore_consumes : PConsumes milliCore :=
  pTakeN_consumes 13 isDigitChar (by omega)

theorem secCore_consumes : PConsumes secCore :=
  pTakeN_consumes 10 isDigitChar (by omega)

/-- On a match, the residual of the base call for a variant with an empty
strip replacement is the rest of the line after the matched span,
right-stripped, escape-stripped and right-stripped again. -/
theorem baseCall_residual {v : VariantId} {line : List Char} {r : MatchResult}
    (hm : variantMatch v line = some r) (hk : keepsLeading v = false)
    {ts : Option PyDateTime} {res : List Char}
    (h : baseCall v line = .ok ts res) :
    res = rstrip (strip_escape_sequences (rstrip r.rest)) := by
  unfold baseCall at h
  rw [hm] at h
  have h₁ : (match subclsStrToTime v r.ts with
    | none => CallOutcome.parseError
    | some dt =>
      CallOutcome.ok (some (if hasTimezone v then dropTz dt else dt))
        (rstrip (strip_escape_sequences
          (rstrip ((if keepsLeading v then r.g1 else []) ++ r.rest))))) =
      .ok ts res := h
  match hp : subclsStrToTime v r.ts with
  | none => rw [hp] at h₁; exact CallOutcome.noConfusion h₁
  | some dt =>
    rw [hp] at h₁
    have h₂ : CallOutcome.ok (some (if hasTimezone v then dropTz dt else dt))
        (rstrip (strip_escape_sequences
          (rstrip ((if keepsLeading v then r.g1 else []) ++ r.rest)))) =
        .ok ts res := h₁
    cases h₂
    rw [hk]
    simp

/-- Lifting of `baseCall_residual` through the `BDHMS` override. -/
theorem transformerCall_residual {v : VariantId} {ct : Option Nat} {now : Nat}
    {line : List Char} {r : MatchResult}
    (hm : variantMatch v line = some r) (hk : keepsLeading v = false)
    {ts : Option PyDateTime} {res : List Char}
    (h : transformerCall v ct now line = .ok ts res) :
    res = rstrip (strip_escape_sequences (rstrip r.rest)) := by
  match v with
  | .bdhms =>
    unfold transformerCall at h
    match hb : baseCall .bdhms line with
    | .parseError => rw [hb] at h; exact CallOutcome.noConfusion h
    | .ok none res' =>
      rw [hb] at h
      have h₂ : CallOutcome.ok none res' = .ok ts res := h
      cases h₂
      exact baseCall_residual hm hk hb
    | .ok (some dt) res' =>
      rw [hb] at h
      have h₂ : CallOutcome.ok (some (setYear dt (bdhmsYear ct now))) res' =
          .ok ts res := h
      cases h₂
      exact baseCall_residual hm hk hb
  | .iso => exact baseCall_residual hm hk h
  | .pyHttp => exact baseCall_residual hm hk h
  | .accessLog => exact baseCall_residual hm hk h
  | .floatEpoch => exact baseCall_residual hm hk h
  | .milliEpoch => exact baseCall_residual hm hk h
  | .secEpoch => exact baseCall_residual hm hk h

theorem firstMatch_none_iff :
    ∀ (vs : List VariantId) (s : List Char),
      firstMatch vs s = none ↔ ∀ v ∈ vs, variantMatch v s = none := by
  intro vs s
  induction vs with
  | nil => simp [firstMatch]
  | cons v t ih =>
    by_cases h : (variantMatch v s).isSome = true
    · rw [firstMatch, if_pos h]
      constructor
      · intro hx; exact Option.noConfusion hx
      · intro hall
        have hv := hall v (List.mem_cons_self v t)
        rw [hv] at h
        exact absurd h (by simp)
    · rw [firstMatch, if_neg h, ih]
      constructor
      · intro hall w hw
        rcases List.mem_cons.mp hw with hw₁ | hw₂
        · rw [hw₁]; exact Option.not_isSome_iff_eq_none.mp h
        · exact hall w hw₂
      · intro hall w hw
        exact hall w (List.mem_cons_of_mem v hw)

theorem firstMatch_some_split :
    ∀ (vs : List VariantId) (s : List Char) (v : VariantId),
      firstMatch vs s = some v →
      (variantMatch v s).isSome = true ∧
        ∃ pre post, vs = pre ++ v :: post ∧
          ∀ w ∈ pre, variantMatch w s = none := by
  intro vs s
  induction vs with
  | nil => intro v h; exact Option.noConfusion h
  | cons x t ih =>
    intro v h
    by_cases hx : (variantMatch x s).isSome = true
    · rw [firstMatch, if_pos hx] at h
      have hv : x = v := Option.some.inj h
      subst hv
      exact ⟨hx, [], t, rfl, by simp⟩
    · rw [firstMatch, if_neg hx] at h
      obtain ⟨h1, pre, post, hsplit, h2⟩ := ih v h
      refine ⟨h1, x :: pre, post, by rw [hsplit, List.cons_append], ?_⟩
      intro w hw
      rcases List.mem_cons.mp hw with hw₁ | hw₂
      · rw [hw₁]; exact Option.not_isSome_iff_eq_none.mp hx
      · exact h2 w hw₂

/-- The canonical example line of each built-in variant, from the source's
class comments and the example lines in the repository's tests. -/
def canonicalLine : VariantId → List Char
  | .iso => ("2023-07-14 14:13:00 message").data
  | .bdhms => ("Jul 14 08:00:02 host proc: msg").data
  | .pyHttp => ("::1 - - [22/Sep/2023 21:58:40] \"GET /log1.txt HTTP/1.1\" 200 -").data
  | .accessLog =>
    ("91.194.60.14 - - [16/Sep/2023:19:05:06 +0000] \"GET /python_nutshell_app_a_search HTTP/1.1\" 200 1027 \"-\"").data
  | .floatEpoch => ("1694561169.550987 message").data
  | .milliEpoch => ("1694561169550 message").data
  | .secEpoch => ("1694561169 message").data

/-! ## Claim theorems -/

def c1Template : List Char := ("(\\w+ - )((...) )").data

def c1Line : List Char := ("INFO - 2023-07-14 14:13:00 message").data

/-- C1: the spec (and the compiler's own docstring example) claim that the
template `(\w+ - )((...) )` combined with the ISO core pattern extracts the
timestamp from `INFO - 2023-07-14 14:13:00 message` and leaves residual
`INFO - message`.  The code disagrees: `ISOFormat` never assigns
`timestamp_pattern`, so the placeholder is replaced by the empty string and
the synthesized pattern is `(\w+ - )(() )`; compiled under `re.VERBOSE`
(which drops the literal spaces) it fails to match the line, and the
transformer returns `(None, " INFO - 2023-07-14 14:13:00 message")`. -/
theorem c1_custom_template_round_trip_fails :
    (make_custom_transformers initCompilerState c1Template).2 = none ∧
    ((make_custom_transformers initCompilerState c1Template).1.customs.map
        (fun d => d.name)).head? = some (("CustomISOFormat_A").data) ∧
    ((make_custom_transformers initCompilerState c1Template).1.customs.map
        (fun d => d.pattern)).head? = some (("(\\w+ - )(() )").data) ∧
    matchCustomIsoA c1Line = none ∧
    customIsoACall c1Line =
      .ok none ((" INFO - 2023-07-14 14:13:00 message").data) := by
  refine ⟨by decide, by decide, by decide, by decide, by decide⟩

/-- C2: detection tries the registered variants in registration order and
returns the first whose pattern matches; it fails (returns `none`,
modelling the raised `ValueError`) exactly when no variant matches; and on
each built-in variant's canonical example line it returns that variant. -/
theorem c2_detection_order :
    (∀ s, make_transformer_from_sample_line s = none ↔
       ∀ v ∈ registrationOrder, variantMatch v s = none) ∧
    (∀ s v, make_transformer_from_sample_line s = some v →
       (variantMatch v s).isSome = true ∧
         ∃ pre post, registrationOrder = pre ++ v :: post ∧
           ∀ w ∈ pre, variantMatch w s = none) ∧
    (∀ v : VariantId,
       make_transformer_from_sample_line (canonicalLine v) = some v) := by
  refine ⟨fun s => firstMatch_none_iff registrationOrder s,
    fun s v h => firstMatch_some_split registrationOrder s v h, ?_⟩
  intro v
  cases v <;> decide

/-- Witness for C2 at a concrete input: detection on the ISO canonical line
returns the ISO variant, whose pattern indeed matches. -/
theorem c2_detection_order_witness :
    (variantMatch .iso (canonicalLine .iso)).isSome = true :=
  (c2_detection_order.2.1 (canonicalLine .iso) .iso (by decide)).1

def c4CounterStr : List Char := ("\x1b[3\x1b[1m4m").data

/-- C4: the claim that ANSI stripping is idempotent is false: removing
`ESC[1m` from `ESC[3ESC[1m4m` joins the fragments into the new escape
sequence `ESC[34m`, which a second strip removes. -/
theorem c4_strip_not_idempotent :
    strip_escape_sequences c4CounterStr = ("\x1b[34m").data ∧
    strip_escape_sequences (strip_escape_sequences c4CounterStr) = [] ∧
    strip_escape_sequences (strip_escape_sequences c4CounterStr) ≠
      strip_escape_sequences c4CounterStr := by
  refine ⟨by decide, by decide, by decide⟩

/-- C4 (amended): stripping twice equals stripping once for every string
whose single-strip output contains no escape character; in general removal
can juxtapose fragments into a new escape sequence, so a second strip may
remove more. -/
theorem c4_strip_idempotent_amended :
    ∀ s : List Char, escChar ∉ strip_escape_sequences s →
      strip_escape_sequences (strip_escape_sequences s) =
        strip_escape_sequences s :=
  fun _ h => strip_escape_sequences_of_not_mem h

/-- Witness for C4 at a concrete input. -/
theorem c4_strip_idempotent_amended_witness :
    strip_escape_sequences (strip_escape_sequences (("ab\x1b[1mc").data)) =
      strip_escape_sequences (("ab\x1b[1mc").data) :=
  c4_strip_idempotent_amended (("ab\x1b[1mc").data) (by decide)

/-- C5: the claim that an unmatched line yields the unmodified line with one
leading space is false: the residual is additionally right-stripped (and
escape-stripped), so a trailing space of the original line is lost. -/
theorem c5_unmatched_counterexample :
    variantMatch .iso (("abc ").data) = none ∧
    transformerCall .iso none 0 (("abc ").data) = .ok none ((" abc").data) ∧
    (" abc").data ≠ ' ' :: ("abc ").data := by
  refine ⟨by decide, by decide, by decide⟩

/-- C5 (amended): on a line the bound pattern does not match, the call
returns timestamp `None` and the line with a single space prepended, then
escape-stripped and right-stripped; in particular, when the line is
non-empty, has no escape characters and no trailing whitespace, the
residual is exactly the space-prefixed unmodified line. -/
theorem c5_unmatched_amended :
    (∀ (v : VariantId) (ct : Option Nat) (now : Nat) (line : List Char),
      variantMatch v line = none →
      transformerCall v ct now line =
        .ok none (rstrip (strip_escape_sequences (' ' :: line)))) ∧
    (∀ (v : VariantId) (ct : Option Nat) (now : Nat) (line : List Char),
      variantMatch v line = none → escChar ∉ line → rstrip line = line →
      line ≠ [] →
      transformerCall v ct now line = .ok none (' ' :: line)) := by
  have hgen : ∀ (v : VariantId) (ct : Option Nat) (now : Nat)
      (line : List Char),
      variantMatch v line = none →
      transformerCall v ct now line =
        .ok none (rstrip (strip_escape_sequences (' ' :: line))) := by
    intro v ct now line hm
    have hbase : baseCall v line =
        .ok none (rstrip (strip_escape_sequences (' ' :: line))) := by
      unfold baseCall
      rw [hm]
    match v with
    | .bdhms =>
      unfold transformerCall
      rw [hbase]
    | .iso => exact hbase
    | .pyHttp => exact hbase
    | .accessLog => exact hbase
    | .floatEpoch => exact hbase
    | .milliEpoch => exact hbase
    | .secEpoch => exact hbase
  refine ⟨hgen, ?_⟩
  intro v ct now line hm hesc hr hne
  have hesc2 : escChar ∉ ' ' :: line := by
    intro hmem
    rcases List.mem_cons.mp hmem with h₁ | h₂
    · exact absurd h₁.symm (by decide)
    · exact hesc h₂
  rw [hgen v ct now line hm, strip_escape_sequences_of_not_mem hesc2,
    rstrip_cons_of ' ' hr hne]

/-- Witness for C5 at a concrete input. -/
theorem c5_unmatched_amended_witness :
    transformerCall .iso none 0 (("abc").data) =
      .ok none (' ' :: ("abc").data) :=
  c5_unmatched_amended.2 .iso none 0 (("abc").data) (by decide) (by decide)
    (by decide) (by decide)

def c3Line1 : List Char := ("1689343980 1689343980").data

def c3Line2 : List Char :=
  ("16/Sep/2023:19:05:0- [16/Sep/2023:19:05:06 +0000] 6 +0000 x").data

def c3Ts2 : List Char := ("16/Sep/2023:19:05:06 +0000").data

/-- C3: the claim that the residual never contains the stripped raw
timestamp substring fails in two ways.  (1) Duplication: for the
epoch-seconds transformer on `1689343980 1689343980`, the residual is
exactly the raw timestamp again.  (2) Even when the timestamp occurs at
only one position, a bracket-log variant can reproduce it: the preserved
leading context joins with the suffix across the removed span. -/
theorem c3_residual_counterexample :
    (variantMatch .secEpoch c3Line1).map (fun r => r.ts) =
      some (("1689343980").data) ∧
    transformerCall .secEpoch none 0 c3Line1 =
      .ok (some ⟨2023, 7, 14, 14, 13, 0, 0, none⟩) (("1689343980").data) ∧
    (("1689343980").data) <:+: (("1689343980").data) ∧
    (variantMatch .accessLog c3Line2).map (fun r => r.ts) = some c3Ts2 ∧
    occursUniquely c3Ts2 c3Line2 ∧
    transformerCall .accessLog none 0 c3Line2 =
      .ok (some ⟨2023, 9, 16, 19, 5, 6, 0, none⟩)
        (("16/Sep/2023:19:05:06 +0000 x").data) ∧
    c3Ts2 <:+: (("16/Sep/2023:19:05:06 +0000 x").data) := by
  refine ⟨by decide, by decide, by decide, by decide, by decide, by decide,
    by decide⟩

/-- C3 (amended): for the variants whose strip replacement is empty (ISO,
syslog and the three epoch formats, i.e. `keepsLeading v = false`), if the
line has no escape characters and the raw timestamp substring occurs at
only one position of the line, then the residual of a successful call does
not contain it.  (The bracket-log variants preserve leading context and can
reproduce the substring, and a repeated substring defeats the property in
general — see the counterexample.) -/
theorem c3_residual_amended :
    ∀ v : VariantId, keepsLeading v = false →
      ∀ (ct : Option Nat) (now : Nat) (line : List Char) (r : MatchResult),
        variantMatch v line = some r → escChar ∉ line →
        occursUniquely r.ts line →
        ∀ (ts : Option PyDateTime) (res : List Char),
          transformerCall v ct now line = .ok ts res →
          ¬ r.ts <:+: res := by
  intro v hk ct now line r hm hesc huniq ts res hcall hinf
  have hres := transformerCall_residual hm hk hcall
  subst hres
  match v with
  | .pyHttp => exact absurd hk (by decide)
  | .accessLog => exact absurd hk (by decide)
  | .iso =>
    obtain ⟨hl, hts, hne⟩ :=
      simpleMatch_structure isoCore_sound isoCore_consumes hm
    exact residual_not_contains_core hl hts hne hesc huniq hinf
  | .bdhms =>
    obtain ⟨hl, hts, hne⟩ :=
      simpleMatch_structure bdhmsCore_sound bdhmsCore_consumes hm
    exact residual_not_contains_core hl hts hne hesc huniq hinf
  | .floatEpoch =>
    obtain ⟨hl, hts, hne⟩ :=
      simpleMatch_structure floatCore_sound floatCore_consumes hm
    exact residual_not_contains_core hl hts hne hesc huniq hinf
  | .milliEpoch =>
    obtain ⟨hl, hts, hne⟩ :=
      simpleMatch_structure milliCore_sound milliCore_consumes hm
    exact residual_not_contains_core hl hts hne hesc huniq hinf
  | .secEpoch =>
    obtain ⟨hl, hts, hne⟩ :=
      simpleMatch_structure secCore_sound secCore_consumes hm
    exact residual_not_contains_core hl hts hne hesc huniq hinf

/-- Witness for C3 at a concrete input. -/
theorem c3_residual_amended_witness :
    ¬ (("1689343980").data) <:+: (("message").data) :=
  c3_residual_amended .secEpoch (by decide) none 0
    (("1689343980 message").data)
    ⟨("1689343980 ").data, ("1689343980").data, ("1689343980 ").data,
      ("message").data⟩
    (by decide) (by decide) (by decide)
    (some ⟨2023, 7, 14, 14, 13, 0, 0, none⟩) (("message").data) (by decide)

def c6LineZ : List Char := ("2023-07-14T14:13:00Z message").data

def c6LinePlus : List Char := ("2023-07-14T14:13:00+00:00 message").data

/-- C6: for every line matched by the ISO variant whose timestamp parses,
the returned timestamp is the parsed value with its offset discarded
(`replace(tzinfo=None)`), hence timezone-naive; in particular the `Z` and
`+00:00` forms of the same instant produce identical results. -/
theorem c6_timezone_discarded :
    (∀ (ct : Option Nat) (now : Nat) (line : List Char) (r : MatchResult)
        (dt : PyDateTime),
      variantMatch .iso line = some r →
      pyFromisoformat r.ts = some dt →
      transformerCall .iso ct now line =
        .ok (some (dropTz dt))
          (rstrip (strip_escape_sequences (rstrip r.rest))) ∧
      (dropTz dt).tzOffset = none) ∧
    transformerCall .iso none 0 c6LineZ =
      transformerCall .iso none 0 c6LinePlus ∧
    transformerCall .iso none 0 c6LineZ =
      .ok (some ⟨2023, 7, 14, 14, 13, 0, 0, none⟩) (("message").data) := by
  refine ⟨?_, by decide, by decide⟩
  intro ct now line r dt hm hp
  refine ⟨?_, rfl⟩
  show baseCall .iso line = _
  unfold baseCall
  rw [hm]
  have hp' : subclsStrToTime .iso r.ts = some dt := hp
  show (match subclsStrToTime VariantId.iso r.ts with
    | none => CallOutcome.parseError
    | some dt =>
      CallOutcome.ok
        (some (if hasTimezone VariantId.iso = true then dropTz dt else dt))
        (rstrip (strip_escape_sequences
          (rstrip ((if keepsLeading VariantId.iso = true then r.g1 else [])
            ++ r.rest))))) =
    CallOutcome.ok (some (dropTz dt))
      (rstrip (strip_escape_sequences (rstrip r.rest)))
  rw [hp']
  rfl

/-- Witness for C6 at a concrete input. -/
theorem c6_timezone_discarded_witness :
    transformerCall .iso none 0 c6LineZ =
      .ok (some (dropTz ⟨2023, 7, 14, 14, 13, 0, 0, some 0⟩))
        (rstrip (strip_escape_sequences (rstrip (("message").data)))) :=
  (c6_timezone_discarded.1 none 0 c6LineZ
    ⟨("2023-07-14T14:13:00Z ").data, ("2023-07-14T14:13:00Z").data,
      ("2023-07-14T14:13:00Z ").data, ("message").data⟩
    ⟨2023, 7, 14, 14, 13, 0, 0, some 0⟩ (by decide) (by decide)).1

def c7Line : List Char := ("Jul 14 08:00:02 host proc: msg").data

/-- The year substituted by the `BDHMS` override is always `bdhmsYear`. -/
theorem bdhms_year_eq {ct : Option Nat} {now : Nat} {line : List Char}
    {dt : PyDateTime} {res : List Char}
    (h : transformerCall .bdhms ct now line = .ok (some dt) res) :
    dt.year = bdhmsYear ct now := by
  unfold transformerCall at h
  match hb : baseCall .bdhms line with
  | .parseError => rw [hb] at h; exact CallOutcome.noConfusion h
  | .ok none res' =>
    rw [hb] at h
    have h₂ : CallOutcome.ok none res' = .ok (some dt) res := h
    injection h₂ with h₃ h₄
    exact Option.noConfusion h₃
  | .ok (some dt₀) res' =>
    rw [hb] at h
    have h₂ : CallOutcome.ok (some (setYear dt₀ (bdhmsYear ct now))) res' =
        .ok (some dt) res := h
    injection h₂ with h₃ h₄
    have h₅ := Option.some.inj h₃
    rw [← h₅]
    rfl

/-- C7 counterexample: with file metadata present but `st_ctime = 0`
(falsy in Python), the parsed year falls back to the current processing
year (2025 here) instead of the creation time's year 1970, although
metadata is available. -/
theorem c7_year_counterexample :
    transformerCall .bdhms (some 0) 2025 c7Line =
      .ok (some ⟨2025, 7, 14, 8, 0, 2, 0, none⟩) (("host proc: msg").data) ∧
    (epochToDT 0).year = 1970 ∧
    (2025 : Nat) ≠ 1970 := by
  refine ⟨by decide, by decide, by decide⟩

/-- C7 (amended): the parsed year equals the year of the file's creation
time when file metadata is attached and its `st_ctime` is non-zero, and the
current processing year otherwise (no metadata, or a zero creation time);
in particular, with creation time in 2023 and the line
`Jul 14 08:00:02 host proc: msg`, the parsed year is 2023. -/
theorem c7_year_amended :
    (∀ (t now : Nat) (line : List Char) (dt : PyDateTime) (res : List Char),
      t ≠ 0 →
      transformerCall .bdhms (some t) now line = .ok (some dt) res →
      dt.year = (epochToDT t).year) ∧
    (∀ (now : Nat) (line : List Char) (dt : PyDateTime) (res : List Char),
      transformerCall .bdhms none now line = .ok (some dt) res →
      dt.year = now) ∧
    (∀ (now : Nat) (line : List Char) (dt : PyDateTime) (res : List Char),
      transformerCall .bdhms (some 0) now line = .ok (some dt) res →
      dt.year = now) ∧
    transformerCall .bdhms (some 1672531200) 2099 c7Line =
      .ok (some ⟨2023, 7, 14, 8, 0, 2, 0, none⟩) (("host proc: msg").data) := by
  refine ⟨?_, ?_, ?_, by decide⟩
  · intro t now line dt res ht h
    rw [bdhms_year_eq h]
    show (if t ≠ 0 then (epochToDT t).year else now) = (epochToDT t).year
    rw [if_pos ht]
  · intro now line dt res h
    rw [bdhms_year_eq h]
    rfl
  · intro now line dt res h
    rw [bdhms_year_eq h]
    show (if (0 : Nat) ≠ 0 then (epochToDT 0).year else now) = now
    rw [if_neg (by omega)]

/-- Witness for C7 at a concrete input. -/
theorem c7_year_amended_witness :
    (⟨2023, 7, 14, 8, 0, 2, 0, none⟩ : PyDateTime).year =
      (epochToDT 1672531200).year :=
  c7_year_amended.1 1672531200 2099 c7Line
    ⟨2023, 7, 14, 8, 0, 2, 0, none⟩ (("host proc: msg").data)
    (by decide) (by decide)

theorem takeWhile_ne_paren {A : List Char} (h : ')' ∉ A) (rest : List Char) :
    (A ++ ')' :: rest).takeWhile (fun c => c ≠ ')') = A := by
  induction A with
  | nil =>
    rw [List.nil_append, List.takeWhile_cons, if_neg]
    decide
  | cons a t ih =>
    have ha : a ≠ ')' := fun hx => h (hx ▸ List.mem_cons_self a t)
    have ht : ')' ∉ t := fun hx => h (List.mem_cons_of_mem a hx)
    rw [List.cons_append, List.takeWhile_cons, if_pos (decide_eq_true ha),
      ih ht]

/-- Every class synthesized by the loop carries the group index and strip
replacement selected by `has_initial_content`. -/
theorem c8_synthLoop_mem (hasInit : Bool) (tpl : List Char) :
    ∀ (l : List (SubclsInfo ⊕ CustomDesc)) (st : CompilerState),
      (∀ d ∈ st.customs,
        d.timestamp_match_group = (if hasInit then 3 else 2) ∧
          d.sub_repl = (if hasInit then ("\\1").data else [])) →
      ∀ d ∈ (synthLoop hasInit tpl l st).1.customs,
        d.timestamp_match_group = (if hasInit then 3 else 2) ∧
          d.sub_repl = (if hasInit then ("\\1").data else []) := by
  intro l
  induction l with
  | nil => intro st hst; exact hst
  | cons x rest ih =>
    intro st hst
    match x with
    | Sum.inr c => exact ih st hst
    | Sum.inl sc =>
      by_cases hidx : st.suffixIdx < suffixLetters.length
      · rw [synthLoop, dif_pos hidx]
        apply ih
        intro d hd
        rcases List.mem_append.mp hd with hd₁ | hd₂
        · exact hst d hd₁
        · rw [List.mem_singleton.mp hd₂]
          exact ⟨rfl, rfl⟩
      · rw [synthLoop, dif_neg hidx]
        exact hst

def c8Template : List Char := ("()((...) )").data

set_option maxRecDepth 4000

/-- C8: the claim derives the group index / strip replacement from
"non-empty literal content precedes the placeholder's enclosing group", but
the code tests only whether the placeholder's dots appear before the first
`)`.  The accepted template `()((...) )` has a leading group with *empty*
content — by the claim every synthesized variant should get group index 2
and an empty replacement — yet the code synthesizes every variant with
group index 3 and the back-reference `\1`. -/
theorem c8_group_assignment_counterexample :
    specNonemptyLeading c8Template = false ∧
    (make_custom_transformers initCompilerState c8Template).2 = none ∧
    ((make_custom_transformers initCompilerState c8Template).1.customs.map
        (fun d => d.timestamp_match_group)) = [3, 3, 3, 3, 3, 3, 3] ∧
    ((make_custom_transformers initCompilerState c8Template).1.customs.map
        (fun d => d.sub_repl)) = List.replicate 7 (("\\1").data) := by
  refine ⟨by decide, by decide, by decide, by decide⟩

/-- C8 (amended): the code keys on whether the placeholder's dots appear
before the template's first `)`.  For templates of the documented shapes
this coincides with the spec: a `(leading)((...)x)` template whose leading
group is non-empty and free of `)` and of the dots yields group index 3 and
replacement `\1` for every synthesized variant, and a `((...)x)` template
yields group index 2 and an empty replacement; but the test is textual, so
e.g. `()((...) )` (empty leading content) still receives index 3. -/
theorem c8_group_assignment_amended :
    (∀ A B : List Char, A ≠ [] → ')' ∉ A → ¬ (("...").data) <:+: A →
      ∀ d ∈ (make_custom_transformers initCompilerState
          (('(' :: A) ++ ')' :: '(' :: '(' :: '.' :: '.' :: '.' :: ')' :: B)).1.customs,
        d.timestamp_match_group = 3 ∧ d.sub_repl = ("\\1").data) ∧
    (∀ B : List Char,
      ∀ d ∈ (make_custom_transformers initCompilerState
          ('(' :: '(' :: '.' :: '.' :: '.' :: ')' :: B)).1.customs,
        d.timestamp_match_group = 2 ∧ d.sub_repl = []) := by
  constructor
  · intro A B hne hparen hdots
    have hinf : listIsInfixOf (("(...)").data)
        (('(' :: A) ++ ')' :: '(' :: '(' :: '.' :: '.' :: '.' :: ')' :: B) =
        true := by
      rw [listIsInfixOf_iff]
      exact ⟨('(' :: A) ++ [')', '('], B, by simp⟩
    have hparen' : ')' ∉ '(' :: A := by
      intro hx
      rcases List.mem_cons.mp hx with h₁ | h₂
      · exact absurd h₁ (by decide)
      · exact hparen h₂
    have htake : (('(' :: A) ++ ')' :: '(' :: '(' :: '.' :: '.' :: '.' :: ')' :: B).takeWhile
        (fun c => c ≠ ')') = '(' :: A := takeWhile_ne_paren hparen' _
    have hni : ¬ (("...").data) <:+: ('(' :: A) := by
      rw [List.infix_cons_iff]
      rintro (hpre | hinf₂)
      · obtain ⟨t, ht⟩ := hpre
        injection ht with h₁ h₂
        exact absurd h₁ (by decide)
      · exact hdots hinf₂
    have hfalse : listIsInfixOf (("...").data) ('(' :: A) = false := by
      cases hb : listIsInfixOf (("...").data) ('(' :: A)
      · rfl
      · exact absurd ((listIsInfixOf_iff _ _).mp hb) hni
    have hhi : has_initial_content
        (('(' :: A) ++ ')' :: '(' :: '(' :: '.' :: '.' :: '.' :: ')' :: B) =
        true := by
      unfold has_initial_content
      rw [htake, hfalse]
      rfl
    unfold make_custom_transformers
    rw [if_pos hinf, hhi]
    apply c8_synthLoop_mem
    intro d hd
    exact absurd hd (List.not_mem_nil d)
  · intro B
    have hinf : listIsInfixOf (("(...)").data)
        ('(' :: '(' :: '.' :: '.' :: '.' :: ')' :: B) = true := by
      rw [listIsInfixOf_iff]
      exact ⟨['('], B, by simp⟩
    have hhi : has_initial_content
        ('(' :: '(' :: '.' :: '.' :: '.' :: ')' :: B) = false := rfl
    unfold make_custom_transformers
    rw [if_pos hinf, hhi]
    apply c8_synthLoop_mem
    intro d hd
    exact absurd hd (List.not_mem_nil d)

def c8WitnessTpl : List Char :=
  ('(' :: ("ab").data) ++ ')' :: '(' :: '(' :: '.' :: '.' :: '.' :: ')' :: (" )").data

/-- Witness for C8 at a concrete input: the first variant synthesized from
`(ab)((...) )` has group index 3 and replacement `\1`. -/
theorem c8_group_assignment_amended_witness :
    ((make_custom_transformers initCompilerState c8WitnessTpl).1.customs.getD 0
        ⟨[], [], [], 0, [], .fmt []⟩).timestamp_match_group = 3 ∧
    ((make_custom_transformers initCompilerState c8WitnessTpl).1.customs.getD 0
        ⟨[], [], [], 0, [], .fmt []⟩).sub_repl = ("\\1").data :=
  c8_group_assignment_amended.1 (("ab").data) ((" )").data) (by decide)
    (by decide) (by decide)
    ((make_custom_transformers initCompilerState c8WitnessTpl).1.customs.getD 0
      ⟨[], [], [], 0, [], .fmt []⟩)
    (by decide)

theorem c9_synthLoop_no_invalid (hasInit : Bool) (tpl : List Char) :
    ∀ (l : List (SubclsInfo ⊕ CustomDesc)) (st : CompilerState),
      (synthLoop hasInit tpl l st).2 ≠ some .invalidTemplate := by
  intro l
  induction l with
  | nil => intro st h; exact Option.noConfusion h
  | cons x rest ih =>
    intro st h
    match x with
    | Sum.inr c => exact ih st h
    | Sum.inl sc =>
      by_cases hidx : st.suffixIdx < suffixLetters.length
      · rw [synthLoop, dif_pos hidx] at h
        exact ih _ h
      · rw [synthLoop, dif_neg hidx] at h
        have h₂ : some CompileErr.stopIteration =
            some CompileErr.invalidTemplate := h
        exact CompileErr.noConfusion (Option.some.inj h₂)

/-- C9: a template without the `(...)` placeholder makes the compiler fail
with the invalid-template error before any variant is added, leaving the
state unchanged; a template containing the placeholder never produces that
error (though it may exhaust the suffix iterator). -/
theorem c9_invalid_template :
    (∀ (st : CompilerState) (tpl : List Char),
      ¬ (("(...)").data) <:+: tpl →
      make_custom_transformers st tpl = (st, some .invalidTemplate)) ∧
    (∀ (st : CompilerState) (tpl : List Char),
      (("(...)").data) <:+: tpl →
      (make_custom_transformers st tpl).2 ≠ some .invalidTemplate) := by
  constructor
  · intro st tpl h
    unfold make_custom_transformers
    rw [if_neg]
    intro hb
    exact h ((listIsInfixOf_iff _ _).mp hb)
  · intro st tpl h
    unfold make_custom_transformers
    rw [if_pos ((listIsInfixOf_iff _ _).mpr h)]
    exact c9_synthLoop_no_invalid _ tpl _ st

/-- Witness for C9 at a concrete input. -/
theorem c9_invalid_template_witness :
    make_custom_transformers initCompilerState (("abc").data) =
      (initCompilerState, some .invalidTemplate) :=
  c9_invalid_template.1 initCompilerState (("abc").data) (by decide)

theorem c10_synthLoop_bound (hasInit : Bool) (tpl : List Char) :
    ∀ (l : List (SubclsInfo ⊕ CustomDesc)) (st : CompilerState),
      st.customs.length ≤ st.suffixIdx → st.suffixIdx ≤ 26 →
      (synthLoop hasInit tpl l st).1.customs.length ≤
          (synthLoop hasInit tpl l st).1.suffixIdx ∧
        (synthLoop hasInit tpl l st).1.suffixIdx ≤ 26 := by
  intro l
  induction l with
  | nil => intro st h1 h2; exact ⟨h1, h2⟩
  | cons x rest ih =>
    intro st h1 h2
    match x with
    | Sum.inr c => exact ih st h1 h2
    | Sum.inl sc =>
      by_cases hidx : st.suffixIdx < suffixLetters.length
      · rw [synthLoop, dif_pos hidx]
        apply ih
        · show (st.customs ++
              [mkCustomDesc hasInit tpl sc
                (suffixLetters.get ⟨st.suffixIdx, hidx⟩)]).length ≤
            st.suffixIdx + 1
          rw [List.length_append]
          simp only [List.length_cons, List.length_nil]
          omega
        · show st.suffixIdx + 1 ≤ 26
          have hlen : suffixLetters.length = 26 := rfl
          omega
      · rw [synthLoop, dif_neg hidx]
        exact ⟨h1, h2⟩

theorem c10_compile_bound :
    ∀ (st : CompilerState) (tpl : List Char),
      st.customs.length ≤ st.suffixIdx → st.suffixIdx ≤ 26 →
      (make_custom_transformers st tpl).1.customs.length ≤
          (make_custom_transformers st tpl).1.suffixIdx ∧
        (make_custom_transformers st tpl).1.suffixIdx ≤ 26 := by
  intro st tpl h1 h2
  unfold make_custom_transformers
  by_cases hb : listIsInfixOf (("(...)").data) tpl = true
  · rw [if_pos hb]
    exact c10_synthLoop_bound _ tpl _ st h1 h2
  · rw [if_neg hb]
    exact ⟨h1, h2⟩

theorem c10_fold_bound :
    ∀ (tpls : List (List Char)) (st : CompilerState),
      st.customs.length ≤ st.suffixIdx → st.suffixIdx ≤ 26 →
      ((tpls.foldl (fun s t => (make_custom_transformers s t).1) st).customs).length ≤ 26 := by
  intro tpls
  induction tpls with
  | nil => intro st h1 h2; exact Nat.le_trans h1 h2
  | cons t rest ih =>
    intro st h1 h2
    rw [List.foldl_cons]
    obtain ⟨g1, g2⟩ := c10_compile_bound st t h1 h2
    exact ih _ g1 g2

def c10Tpl : List Char := ("((...) )").data

def c10Run3 : CompilerState :=
  (make_custom_transformers
    (make_custom_transformers
      (make_custom_transformers initCompilerState c10Tpl).1 c10Tpl).1
    c10Tpl).1

/-- C10: the suffix iterator is a single fixed 26-letter sequence shared
across invocations, so no run of compilations can ever leave more than 26
synthesized variants; concretely, three invocations on a valid template
synthesize 7 each (21 total), and the fourth stops after the 26th variant
with an unhandled `StopIteration` when it asks for a 27th suffix. -/
theorem c10_suffix_iterator_bound :
    (∀ tpls : List (List Char),
      (((tpls.foldl (fun s t => (make_custom_transformers s t).1)
          initCompilerState).customs).length) ≤ 26) ∧
    suffixLetters.length = 26 ∧
    c10Run3.customs.length = 21 ∧
    (make_custom_transformers c10Run3 c10Tpl).1.customs.length = 26 ∧
    (make_custom_transformers c10Run3 c10Tpl).2 = some .stopIteration := by
  refine ⟨?_, by decide, by decide, by decide, by decide⟩
  intro tpls
  exact c10_fold_bound tpls initCompilerState (by decide) (by decide)
